import Mathlib

/-!
Verification of the admin analytics/query layer of the pharmacos-server backend
(`backend/routes/admin.js`) against its specification.

The handlers are shallowly embedded as pure functions over a `Store` value holding
the relevant document collections.  Mongoose/MongoDB query and aggregation stages
(`$match`, `$group`, `$sort`, `$lookup`, `$unwind`, `find` with filter / sort /
skip / limit) are translated stage by stage into list operations; `$sort` is
modelled by a stable insertion sort.
-/

namespace Pharmacos

/-- MongoDB ObjectIds are modelled as naturals; only equality is used on them. -/
abbrev ObjectId := Nat

/-- A BSON date value.  `ts` is the absolute timestamp used by date comparisons
(`$gte` / `$lte` on `orderDate`); `year` and `month` are the calendar components
extracted by the `$year` / `$month` aggregation operators. -/
structure Date where
  ts : Int
  year : Nat
  month : Nat
deriving DecidableEq

/-- A document of the Customer collection, restricted to the fields the admin
routes read or write (`name`, `email` for search and sort, `status` for the
status PATCH). -/
structure Customer where
  _id : ObjectId
  name : String
  email : String
  status : String
deriving DecidableEq

/-- A document of the Order collection. -/
structure Order where
  _id : ObjectId
  customerId : ObjectId
  orderDate : Date
  totalAmount : Int
  status : String
deriving DecidableEq

/-- A document of the OrderDetail collection (one line item of an order). -/
structure OrderDetail where
  orderId : ObjectId
  productId : ObjectId
  quantity : Int
  unitPrice : Int
deriving DecidableEq

/-- A document of the Product collection, restricted to the fields the admin
routes use. -/
structure Product where
  _id : ObjectId
  name : String
  stockQuantity : Int
deriving DecidableEq

/-- The document store: the collections consulted by `backend/routes/admin.js`. -/
structure Store where
  customers : List Customer
  orders : List Order
  orderDetails : List OrderDetail
  products : List Product
deriving DecidableEq

/-! ### Search filter (`GET /customers`)

The handler passes the raw search string to `$regex` with option `"i"`.  The
model implements the literal-and-dot fragment of the PCRE dialect: `.` matches
any character, every other pattern character matches itself up to case (option
`"i"`). -/

/-- One pattern character against one text character, case-insensitively. -/
def chMatch (p c : Char) : Bool :=
  p == '.' || p.toLower == c.toLower

/-- Does the pattern match a prefix of the text? -/
def reLead : List Char → List Char → Bool
  | [], _ => true
  | _ :: _, [] => false
  | p :: ps, c :: cs => chMatch p c && reLead ps cs

/-- Does the pattern match anywhere in the text?  (`$regex` is an unanchored
search.) -/
def reFind (pat : List Char) : List Char → Bool
  | [] => reLead pat []
  | c :: cs => reLead pat (c :: cs) || reFind pat cs

/-- The filter built by `GET /customers`:
`if (search) filter = { $or: [ name $regex i, email $regex i ] }`.
An absent or empty search string is falsy in JS, leaving the filter empty. -/
def matchesSearch (search : Option String) (c : Customer) : Bool :=
  match search with
  | none => true
  | some s =>
    if s = "" then true
    else reFind s.data c.name.data || reFind s.data c.email.data

/-! ### Sort directive (`GET /customers`) -/

/-- Value of a sort field on a Customer document.  `none` models a field name
that does not exist on the documents; such a field is missing on every document
and therefore compares equal everywhere. -/
def fieldVal (field : String) (c : Customer) : Option String :=
  if field = "name" then some c.name
  else if field = "email" then some c.email
  else if field = "status" then some c.status
  else none

/-- Lexicographic order on strings by character code (MongoDB's simple binary
collation, the default). -/
def strLEb : List Char → List Char → Bool
  | [], _ => true
  | _ :: _, [] => false
  | a :: as, b :: bs =>
    if a.toNat = b.toNat then strLEb as bs else decide (a.toNat < b.toNat)

/-- Order on optional field values: a missing value sorts before every string. -/
def optLEb : Option String → Option String → Bool
  | none, _ => true
  | some _, none => false
  | some x, some y => strLEb x.data y.data

/-- The comparator induced by the sort object
`sort[field] = order === "desc" ? -1 : 1`. -/
def custRel (field : String) (desc : Bool) (a b : Customer) : Prop :=
  (if desc then optLEb (fieldVal field b) (fieldVal field a)
   else optLEb (fieldVal field a) (fieldVal field b)) = true

instance (field : String) (desc : Bool) : DecidableRel (custRel field desc) :=
  fun a b => by unfold custRel; exact inferInstance

/-- `sortBy.split(":")` on the character list: split at every colon, an empty
input producing one empty component, as in JS. -/
def splitCols : List Char → List (List Char)
  | [] => [[]]
  | c :: cs =>
    if c = ':' then [] :: splitCols cs
    else
      match splitCols cs with
      | [] => [[c]]
      | r :: rs => (c :: r) :: rs

/-- `const [field, order] = sortBy.split(":")` — JS array destructuring leaves
`order` undefined when the string has no colon, and discards components beyond
the second. -/
def parseSort (s : String) : String × Option String :=
  match splitCols s.data with
  | [] => (s, none)
  | [f] => (String.mk f, none)
  | f :: o :: _ => (String.mk f, some (String.mk o))

/-- `.sort(sort)` with the sort object built by the handler: an absent or empty
(falsy) `sortBy` leaves `sort = {}`, i.e. natural store order; otherwise a
stable sort on the parsed field, descending exactly when the parsed order is
the string "desc". -/
def applySort (sortBy : Option String) (cs : List Customer) : List Customer :=
  match sortBy with
  | none => cs
  | some s =>
    if s = "" then cs
    else
      List.insertionSort (custRel (parseSort s).1 ((parseSort s).2 == some "desc")) cs

/-! ### `GET /customers` -/

/-- Shape of the 200 response body of `GET /customers`. -/
structure CustomersResponse where
  customers : List Customer
  totalPages : Nat
  currentPage : Nat
  total : Nat
deriving DecidableEq

/-- `Customer.find(filter)` — the customers matching the search filter, in
natural store order. -/
def filteredCustomers (st : Store) (search : Option String) : List Customer :=
  st.customers.filter (matchesSearch search)

/-- Core of the `GET /customers` handler, after numeric coercion of `page` and
`limit` (see `jsToNat`): filter, sort, `skip((page - 1) * limit)`,
`limit(limit)`, and the response envelope with
`totalPages = Math.ceil(total / limit)` (written in ℕ for `limit ≥ 1`). -/
def getCustomers (st : Store) (search sortBy : Option String)
    (page limit : Nat) : CustomersResponse :=
  let fs := filteredCustomers st search
  { customers := ((applySort sortBy fs).drop ((page - 1) * limit)).take limit
    totalPages := (fs.length + limit - 1) / limit
    currentPage := page
    total := fs.length }

/-- Is the character a decimal digit? -/
def isDigitChar (c : Char) : Bool :=
  decide (48 ≤ c.toNat) && decide (c.toNat ≤ 57)

/-- Value of a string of decimal digits. -/
def decValue : List Char → Nat
  | [] => 0
  | c :: cs => (c.toNat - 48) * 10 ^ cs.length + decValue cs

/-- JS numeric coercion of an optional query-string parameter with a
destructuring default: an absent parameter takes the default; a present
parameter is coerced, `none` modelling a value that does not coerce to a
nonnegative integer (as `"abc" - 1` is NaN in JS). -/
def jsToNat (raw : Option String) (dflt : Nat) : Option Nat :=
  match raw with
  | none => some dflt
  | some s =>
    if !s.data.isEmpty && s.data.all isDigitChar then some (decValue s.data) else none

/-- Status-code/body outcome of the full `GET /customers` handler.  The handler
body has no validation branch: its only responses are `res.json(...)` (200) and
the catch-all `res.status(500)`.  A page or limit that does not coerce to a
number produces a NaN skip/limit which the store layer rejects, surfacing
through the catch as 500; `storeOk` models whether the store calls succeed. -/
def getCustomersResponse (st : Store) (search sortBy pageRaw limitRaw : Option String)
    (storeOk : Bool) : Nat × Option CustomersResponse :=
  match jsToNat pageRaw 1, jsToNat limitRaw 10 with
  | some page, some limit =>
    if storeOk then (200, some (getCustomers st search sortBy page limit)) else (500, none)
  | _, _ => (500, none)

/-! ### Substring matching, as the spec words the search contract -/

/-- Is the needle a prefix of the haystack (case-sensitively)? -/
def leadEq : List Char → List Char → Bool
  | [], _ => true
  | _ :: _, [] => false
  | a :: as, b :: bs => a == b && leadEq as bs

/-- Literal substring containment. -/
def hasSub (needle : List Char) : List Char → Bool
  | [] => leadEq needle []
  | c :: cs => leadEq needle (c :: cs) || hasSub needle cs

/-- The search predicate following the spec's words — "matches
case-insensitively against name OR email via substring match" — stated for
comparison against the `$regex` behaviour of the code. -/
def specSearchMatch (s : String) (c : Customer) : Bool :=
  hasSub (s.data.map Char.toLower) (c.name.data.map Char.toLower)
  || hasSub (s.data.map Char.toLower) (c.email.data.map Char.toLower)

/-- The PCRE metacharacters.  A pattern avoiding all of them is matched purely
literally by a regex engine. -/
def regexMeta : List Char :=
  ['.', '*', '+', '?', '(', ')', '[', ']', '|', '^', '$', '\\',
   Char.ofNat 123, Char.ofNat 125]

/-! ### `GET /analytics/sales` -/

/-- The `$match` stage shared by both sales aggregations: `status: "completed"`,
with the `orderDate` range added only when BOTH `startDate` and `endDate` are
supplied (`if (startDate && endDate)`; an absent or empty parameter is falsy). -/
def salesMatch (startDate endDate : Option Date) (o : Order) : Bool :=
  decide (o.status = "completed") &&
    match startDate, endDate with
    | some s, some e => decide (s.ts ≤ o.orderDate.ts) && decide (o.orderDate.ts ≤ e.ts)
    | _, _ => true

/-- The orders surviving the `$match` stage. -/
def matchedOrders (st : Store) (startDate endDate : Option Date) : List Order :=
  st.orders.filter (salesMatch startDate endDate)

/-- The `$group` key `{ year: { $year: "$orderDate" }, month: { $month: ... } }`. -/
def monthKey (o : Order) : Nat × Nat :=
  (o.orderDate.year, o.orderDate.month)

/-- One row of the salesByMonth result
(`_id: { year, month }, totalSales, orderCount`). -/
structure MonthlySales where
  year : Nat
  month : Nat
  totalSales : Int
  orderCount : Nat
deriving DecidableEq

/-- The `$group` output row for one (year, month) key:
`totalSales: { $sum: "$totalAmount" }, orderCount: { $sum: 1 }`. -/
def monthGroup (os : List Order) (k : Nat × Nat) : MonthlySales :=
  { year := k.1
    month := k.2
    totalSales := ((os.filter (fun o => decide (monthKey o = k))).map Order.totalAmount).sum
    orderCount := (os.filter (fun o => decide (monthKey o = k))).length }

/-- The order of `$sort { "_id.year": 1, "_id.month": 1 }`. -/
def monthLE (a b : MonthlySales) : Prop :=
  a.year < b.year ∨ (a.year = b.year ∧ a.month ≤ b.month)

instance : DecidableRel monthLE := fun a b => by
  unfold monthLE; exact inferInstance

/-- The salesByMonth aggregation: match, group by (year, month), sort
ascending by (year, month). -/
def salesByMonth (st : Store) (startDate endDate : Option Date) : List MonthlySales :=
  List.insertionSort monthLE
    ((((matchedOrders st startDate endDate).map monthKey).dedup).map
      (monthGroup (matchedOrders st startDate endDate)))

/-- `$lookup` from `orderdetails` on `_id = orderId`: the `items` array attached
to one order. -/
def orderItems (st : Store) (o : Order) : List OrderDetail :=
  st.orderDetails.filter (fun d => decide (d.orderId = o._id))

/-- `$unwind "$items"` over the matched orders: one row per line item of each
matching order. -/
def matchedItems (st : Store) (startDate endDate : Option Date) : List OrderDetail :=
  (matchedOrders st startDate endDate).flatMap (orderItems st)

/-- One group of the topProducts aggregation (`_id: "$items.productId"`). -/
structure ProductGroup where
  productId : ObjectId
  totalQuantity : Int
  totalRevenue : Int
deriving DecidableEq

/-- The `$group` output row for one productId:
`totalQuantity: { $sum: "$items.quantity" }`,
`totalRevenue: { $sum: { $multiply: ["$items.quantity", "$items.unitPrice"] } }`. -/
def productGroup (items : List OrderDetail) (pid : ObjectId) : ProductGroup :=
  { productId := pid
    totalQuantity :=
      ((items.filter (fun d => decide (d.productId = pid))).map OrderDetail.quantity).sum
    totalRevenue :=
      ((items.filter (fun d => decide (d.productId = pid))).map
        (fun d => d.quantity * d.unitPrice)).sum }

/-- The grouped line items, one group per distinct productId. -/
def productGroups (items : List OrderDetail) : List ProductGroup :=
  ((items.map OrderDetail.productId).dedup).map (productGroup items)

/-- The order of `$sort { totalQuantity: -1 }`. -/
def qtyGE (a b : ProductGroup) : Prop :=
  b.totalQuantity ≤ a.totalQuantity

instance : DecidableRel qtyGE := fun a b => by
  unfold qtyGE; exact inferInstance

/-- The relation "descending by totalQuantity" on the joined rows. -/
def topRel (a b : ProductGroup × Product) : Prop :=
  b.1.totalQuantity ≤ a.1.totalQuantity

/-- The topSellingProducts pipeline: match, `$lookup` + `$unwind` the line
items, group by productId, `$sort` by quantity descending, `$limit 10`, then
`$lookup` each group's Product and `$unwind "$product"` — a group whose
productId matches no Product document produces no output row. -/
def topProducts (st : Store) (startDate endDate : Option Date) :
    List (ProductGroup × Product) :=
  ((List.insertionSort qtyGE (productGroups (matchedItems st startDate endDate))).take 10).flatMap
    (fun g => (st.products.filter (fun p => decide (p._id = g.productId))).map
      (fun p => (g, p)))

/-! ### `GET /analytics/products` -/

/-- The `$match` of the 30-day product-sales aggregation: completed orders with
`orderDate: { $gte: thirtyDaysAgo }`.  The cutoff — computed from the wall
clock in the handler (`new Date()` minus 30 days) — is passed as a parameter. -/
def recentOrders (st : Store) (cutoff : Int) : List Order :=
  st.orders.filter
    (fun o => decide (o.status = "completed") && decide (cutoff ≤ o.orderDate.ts))

/-- Line items of the completed orders in the window, after
`$lookup` + `$unwind`. -/
def recentItems (st : Store) (cutoff : Int) : List OrderDetail :=
  (recentOrders st cutoff).flatMap (orderItems st)

/-- One row of the productSales result (`_id: productId, totalSales`). -/
structure ProductSalesRow where
  _id : ObjectId
  totalSales : Int
deriving DecidableEq

/-- The productSales aggregation: group the window's line items by productId,
summing quantity (`totalSales: { $sum: "$items.quantity" }`). -/
def productSales (st : Store) (cutoff : Int) : List ProductSalesRow :=
  (((recentItems st cutoff).map OrderDetail.productId).dedup).map
    (fun pid =>
      { _id := pid
        totalSales :=
          (((recentItems st cutoff).filter (fun d => decide (d.productId = pid))).map
            OrderDetail.quantity).sum })

/-- `const soldProductIds = productSales.map(p => p._id)`. -/
def soldProductIds (st : Store) (cutoff : Int) : List ObjectId :=
  (productSales st cutoff).map ProductSalesRow._id

/-- `Product.find({ _id: { $nin: soldProductIds } })`. -/
def noSalesProducts (st : Store) (cutoff : Int) : List Product :=
  st.products.filter (fun p => !decide (p._id ∈ soldProductIds st cutoff))

/-- The products having a completed-order line item within the window — the set
the claim compares `noSalesProducts` against. -/
def soldProducts (st : Store) (cutoff : Int) : List Product :=
  st.products.filter
    (fun p => (recentItems st cutoff).any (fun d => decide (d.productId = p._id)))

/-! ### `PATCH /customers/:id/status` -/

/-- The customers collection after the status update: the document with the
given id carries the new status, all others are untouched. -/
def updatedCustomers (st : Store) (id : ObjectId) (status : String) : List Customer :=
  st.customers.map (fun d => if d._id = id then { d with status := status } else d)

/-- `Customer.findByIdAndUpdate(id, { status }, { new: true })`: update the
document with the given id (if any) and return the updated document, paired
with the resulting store. -/
def updateCustomerStatus (st : Store) (id : ObjectId) (status : String) :
    Option Customer × Store :=
  match st.customers.find? (fun c => decide (c._id = id)) with
  | none => (none, st)
  | some c =>
    (some { c with status := status },
     { st with customers := updatedCustomers st id status })

/-- The handler's response: 200 with the updated document, or 404
(`"Customer not found"`) when the id resolves to no customer. -/
def patchCustomerStatus (st : Store) (id : ObjectId) (status : String) :
    (Nat × Option Customer) × Store :=
  match updateCustomerStatus st id status with
  | (none, st') => ((404, none), st')
  | (some c, st') => ((200, some c), st')

/-! ### Concrete stores used by counterexamples and witnesses -/

/-- Concrete three-customer store used by the pagination and status-update
witnesses. -/
def c4Store : Store :=
  { customers := [⟨1, "Alice", "alice@shop.test", "active"⟩,
                  ⟨2, "Bob", "bob@shop.test", "active"⟩,
                  ⟨3, "Carl", "carl@shop.test", "active"⟩]
    orders := []
    orderDetails := []
    products := [] }

/-- The customer used by the search counterexample and witness; the email is
chosen without a literal dot. -/
def john : Customer :=
  { _id := 7, name := "John", email := "john@shoptest", status := "active" }

/-- A one-customer store. -/
def c5Store : Store :=
  { customers := [john], orders := [], orderDetails := [], products := [] }

/-- A store in which ten distinct products have completed-order sales but only
nine of them still exist in the Products collection (productId 10 has no
Product document). -/
def c10Store : Store :=
  { customers := []
    orders := [{ _id := 1, customerId := 1, orderDate := ⟨0, 2024, 1⟩,
                 totalAmount := 100, status := "completed" }]
    orderDetails :=
      [⟨1, 1, 1, 1⟩, ⟨1, 2, 1, 1⟩, ⟨1, 3, 1, 1⟩, ⟨1, 4, 1, 1⟩, ⟨1, 5, 1, 1⟩,
       ⟨1, 6, 1, 1⟩, ⟨1, 7, 1, 1⟩, ⟨1, 8, 1, 1⟩, ⟨1, 9, 1, 1⟩, ⟨1, 10, 1, 1⟩]
    products :=
      [⟨1, "p1", 0⟩, ⟨2, "p2", 0⟩, ⟨3, "p3", 0⟩, ⟨4, "p4", 0⟩, ⟨5, "p5", 0⟩,
       ⟨6, "p6", 0⟩, ⟨7, "p7", 0⟩, ⟨8, "p8", 0⟩, ⟨9, "p9", 0⟩] }

/-! ### Ceiling-division characterisation used by the pagination claim -/

theorem ceilDiv_le_iff (t l m : Nat) (hl : 1 ≤ l) :
    (t + l - 1) / l ≤ m ↔ t ≤ m * l := by
  cases t with
  | zero =>
    have h0 : (0 + l - 1) / l = 0 := Nat.div_eq_of_lt (by omega)
    rw [h0]
    simp
  | succ s =>
    have h1 : s + 1 + l - 1 = s + l := by omega
    have h2 : (s + l) / l = s / l + 1 := Nat.add_div_right s (by omega)
    rw [h1, h2]
    have h3 : s / l < m ↔ s < m * l := Nat.div_lt_iff_lt_mul (by omega)
    omega

/-! ### General helper lemmas -/

theorem pairwise_of_forall {α : Type} {R : α → α → Prop} (h : ∀ a b, R a b) :
    ∀ l : List α, l.Pairwise R := by
  intro l
  induction l with
  | nil => exact List.Pairwise.nil
  | cons a l ih => exact List.Pairwise.cons (fun b _ => h a b) ih

/-- A list of naturals bounded by 1 sums to at most its length. -/
theorem sum_le_length_of_le_one :
    ∀ l : List Nat, (∀ x ∈ l, x ≤ 1) → l.sum ≤ l.length := by
  intro l
  induction l with
  | nil => intro _; simp
  | cons a l ih =>
    intro h
    have ha : a ≤ 1 := h a (by simp)
    have hl : l.sum ≤ l.length := ih (fun x hx => h x (by simp [hx]))
    simp only [List.sum_cons, List.length_cons]
    omega

/-- When the keys of a list are pairwise distinct, at most one element carries
any given key. -/
theorem length_filter_key_le_one {α κ : Type} [DecidableEq κ] (key : α → κ)
    (l : List α) (h : (l.map key).Nodup) (k : κ) :
    (l.filter (fun x => decide (key x = k))).length ≤ 1 := by
  induction l with
  | nil => simp
  | cons a l ih =>
    rw [List.map_cons, List.nodup_cons] at h
    by_cases hak : key a = k
    · have hnil : l.filter (fun x => decide (key x = k)) = [] := by
        rw [List.filter_eq_nil_iff]
        intro x hx
        simp only [decide_eq_true_eq]
        intro hk
        exact h.1 (by rw [hak, ← hk]; exact List.mem_map_of_mem key hx)
      simp [List.filter_cons, hak, hnil]
    · simp only [List.filter_cons, decide_eq_true_eq]
      rw [if_neg hak]
      exact ih h.2

/-- Summing a value fiberwise over a covering list of pairwise-distinct keys
yields the total sum. -/
theorem sum_partition {α κ : Type} [DecidableEq κ] (key : α → κ) (val : α → Int) :
    ∀ (keys : List κ) (xs : List α), keys.Nodup → (∀ x ∈ xs, key x ∈ keys) →
      (keys.map (fun k => ((xs.filter (fun x => decide (key x = k))).map val).sum)).sum
        = (xs.map val).sum := by
  intro keys
  induction keys with
  | nil =>
    intro xs _ hcov
    cases xs with
    | nil => simp
    | cons a l => exact absurd (hcov a (by simp)) (by simp)
  | cons k ks ih =>
    intro xs hnd hcov
    rw [List.nodup_cons] at hnd
    have hperm : List.Perm
        ((xs.filter (fun x => decide (key x = k))).map val
          ++ (xs.filter (fun x => !decide (key x = k))).map val)
        (xs.map val) := by
      rw [← List.map_append]
      exact (List.filter_append_perm (fun x => decide (key x = k)) xs).map val
    have htail : ∀ k' ∈ ks,
        (xs.filter (fun x => !decide (key x = k))).filter (fun x => decide (key x = k'))
          = xs.filter (fun x => decide (key x = k')) := by
      intro k' hk'
      rw [List.filter_filter]
      apply List.filter_congr
      intro x _
      by_cases hx : key x = k'
      · have hne : k' ≠ k := fun hkk => hnd.1 (hkk ▸ hk')
        simp [hx, hne]
      · simp [hx]
    have hcov2 : ∀ x ∈ xs.filter (fun x => !decide (key x = k)), key x ∈ ks := by
      intro x hx
      rw [List.mem_filter] at hx
      have := hcov x hx.1
      simp only [Bool.not_eq_eq_eq_not, Bool.not_true, decide_eq_false_iff_not] at hx
      rcases List.mem_cons.1 this with h | h
      · exact absurd h hx.2
      · exact h
    have hrec := ih (xs.filter (fun x => !decide (key x = k))) hnd.2 hcov2
    rw [List.map_cons, List.sum_cons]
    calc ((xs.filter (fun x => decide (key x = k))).map val).sum
          + (ks.map (fun k' => ((xs.filter (fun x => decide (key x = k'))).map val).sum)).sum
        = ((xs.filter (fun x => decide (key x = k))).map val).sum
          + (ks.map (fun k' =>
              (((xs.filter (fun x => !decide (key x = k))).filter
                (fun x => decide (key x = k'))).map val).sum)).sum := by
          congr 1
          congr 1
          apply List.map_congr_left
          intro k' hk'
          rw [htail k' hk']
      _ = ((xs.filter (fun x => decide (key x = k))).map val).sum
          + ((xs.filter (fun x => !decide (key x = k))).map val).sum := by
          rw [hrec]
      _ = (xs.map val).sum := by
          rw [← List.sum_append]
          exact hperm.sum_eq

/-! ### Order properties of the sort comparators -/

theorem strLEb_total (x y : List Char) : strLEb x y = true ∨ strLEb y x = true := by
  induction x generalizing y with
  | nil => left; rfl
  | cons a as ih =>
    cases y with
    | nil => right; rfl
    | cons b bs =>
      simp only [strLEb]
      rcases Nat.lt_trichotomy a.toNat b.toNat with h | h | h
      · left; rw [if_neg (by omega)]; exact decide_eq_true h
      · rcases ih bs with h1 | h1
        · left; rw [if_pos h]; exact h1
        · right; rw [if_pos h.symm]; exact h1
      · right; rw [if_neg (by omega)]; exact decide_eq_true h

theorem strLEb_trans (x y z : List Char) (hxy : strLEb x y = true)
    (hyz : strLEb y z = true) : strLEb x z = true := by
  induction x generalizing y z with
  | nil => rfl
  | cons a as ih =>
    cases y with
    | nil => exact absurd hxy (by simp [strLEb])
    | cons b bs =>
      cases z with
      | nil => exact absurd hyz (by simp [strLEb])
      | cons c cs =>
        simp only [strLEb] at hxy hyz ⊢
        by_cases hab : a.toNat = b.toNat <;> by_cases hbc : b.toNat = c.toNat
        · rw [if_pos hab] at hxy
          rw [if_pos hbc] at hyz
          rw [if_pos (hab.trans hbc)]
          exact ih bs cs hxy hyz
        · rw [if_pos hab] at hxy
          rw [if_neg hbc] at hyz
          have h2 : b.toNat < c.toNat := of_decide_eq_true hyz
          rw [if_neg (by omega)]
          exact decide_eq_true (by omega)
        · rw [if_neg hab] at hxy
          rw [if_pos hbc] at hyz
          have h1 : a.toNat < b.toNat := of_decide_eq_true hxy
          rw [if_neg (by omega)]
          exact decide_eq_true (by omega)
        · rw [if_neg hab] at hxy
          rw [if_neg hbc] at hyz
          have h1 : a.toNat < b.toNat := of_decide_eq_true hxy
          have h2 : b.toNat < c.toNat := of_decide_eq_true hyz
          rw [if_neg (by omega)]
          exact decide_eq_true (by omega)

theorem optLEb_total (x y : Option String) : optLEb x y = true ∨ optLEb y x = true := by
  cases x with
  | none => left; rfl
  | some a =>
    cases y with
    | none => right; rfl
    | some b => exact strLEb_total a.data b.data

theorem optLEb_trans (x y z : Option String) (hxy : optLEb x y = true)
    (hyz : optLEb y z = true) : optLEb x z = true := by
  cases x with
  | none => rfl
  | some a =>
    cases y with
    | none => exact absurd hxy (by simp [optLEb])
    | some b =>
      cases z with
      | none => exact absurd hyz (by simp [optLEb])
      | some c => exact strLEb_trans a.data b.data c.data hxy hyz

instance (field : String) (desc : Bool) : IsTotal Customer (custRel field desc) := by
  constructor
  intro a b
  unfold custRel
  cases desc
  · simpa using optLEb_total (fieldVal field a) (fieldVal field b)
  · simpa using optLEb_total (fieldVal field b) (fieldVal field a)

instance (field : String) (desc : Bool) : IsTrans Customer (custRel field desc) := by
  constructor
  intro a b c hab hbc
  unfold custRel at hab hbc ⊢
  cases desc
  · simp only [Bool.false_eq_true, if_false] at hab hbc ⊢
    exact optLEb_trans _ _ _ hab hbc
  · simp only [if_true] at hab hbc ⊢
    exact optLEb_trans _ _ _ hbc hab

/-- A sort field that is not one of the document's fields compares equal on all
documents. -/
theorem custRel_unknown (field : String) (desc : Bool)
    (h1 : field ≠ "name") (h2 : field ≠ "email") (h3 : field ≠ "status") :
    ∀ a b : Customer, custRel field desc a b := by
  intro a b
  cases desc <;> simp [custRel, fieldVal, h1, h2, h3] <;> rfl

instance : IsTotal MonthlySales monthLE := by
  constructor
  intro a b
  unfold monthLE
  omega

instance : IsTrans MonthlySales monthLE := by
  constructor
  intro a b c
  unfold monthLE
  omega

instance : IsTotal ProductGroup qtyGE := by
  constructor
  intro a b
  unfold qtyGE
  omega

instance : IsTrans ProductGroup qtyGE := by
  constructor
  intro a b c
  unfold qtyGE
  omega

/-- C4: for every store and `GET /customers` request with `page ≥ 1` and
`limit ≥ 1` (page defaulting to 1 and limit to 10 when absent), the returned
customer list is the matching list with the first `(page − 1) × limit` entries
skipped and at most `limit` entries kept, `total` is the count of matching
customers, and `totalPages` is `ceil(total / limit)` — characterised as the
least `m` with `total ≤ m * limit`. -/
theorem getCustomers_pagination (st : Store) (search sortBy : Option String)
    (page limit : Nat) (_hp : 1 ≤ page) (hl : 1 ≤ limit) :
    (getCustomers st search sortBy page limit).customers
      = ((applySort sortBy (filteredCustomers st search)).drop
          ((page - 1) * limit)).take limit
    ∧ (getCustomers st search sortBy page limit).customers.length ≤ limit
    ∧ (getCustomers st search sortBy page limit).total
        = (filteredCustomers st search).length
    ∧ (getCustomers st search sortBy page limit).total
        ≤ (getCustomers st search sortBy page limit).totalPages * limit
    ∧ (∀ m : Nat, (getCustomers st search sortBy page limit).total ≤ m * limit →
        (getCustomers st search sortBy page limit).totalPages ≤ m)
    ∧ getCustomersResponse st search sortBy none none true
        = (200, some (getCustomers st search sortBy 1 10)) := by
  refine ⟨rfl, ?_, rfl, ?_, ?_, rfl⟩
  · show (((applySort sortBy (filteredCustomers st search)).drop
        ((page - 1) * limit)).take limit).length ≤ limit
    rw [List.length_take]
    omega
  · show (filteredCustomers st search).length
      ≤ ((filteredCustomers st search).length + limit - 1) / limit * limit
    exact (ceilDiv_le_iff _ _ _ hl).1 (le_refl _)
  · intro m hm
    exact (ceilDiv_le_iff _ _ _ hl).2 hm

/-- Witness for C4: page 2 with limit 2 over a three-customer store returns at
most two customers. -/
theorem getCustomers_pagination_witness :
    (getCustomers c4Store none none 2 2).customers.length ≤ 2 :=
  (getCustomers_pagination c4Store none none 2 2 (by decide) (by decide)).2.1

/-- C8 (code_bug evidence): the `GET /customers` handler has no validation
branch — for every input, including a non-numeric `page`, the response status
is never 400; a `page` of "abc" surfaces as 500, not as a validation error. -/
theorem getCustomers_never_400 (st : Store) (search sortBy pageRaw limitRaw : Option String)
    (storeOk : Bool) :
    (getCustomersResponse st search sortBy pageRaw limitRaw storeOk).1 ≠ 400
    ∧ (getCustomersResponse st search sortBy (some "abc") limitRaw storeOk).1 = 500 := by
  have habc : jsToNat (some "abc") 1 = none := by decide
  constructor
  · unfold getCustomersResponse
    cases jsToNat pageRaw 1 <;> cases jsToNat limitRaw 10 <;> cases storeOk <;> simp
  · unfold getCustomersResponse
    rw [habc]

/-! ### Regex versus literal substring matching -/

/-- A non-dot pattern character matches exactly literally, up to case. -/
theorem chMatch_of_ne_dot (p c : Char) (h : p ≠ '.') :
    chMatch p c = (p.toLower == c.toLower) := by
  unfold chMatch
  have hfalse : (p == '.') = false := by
    simp [h]
  rw [hfalse, Bool.false_or]

/-- On dot-free patterns, the anchored regex match is the literal prefix check
on the lower-cased strings. -/
theorem reLead_eq (pat : List Char) (h : ∀ p ∈ pat, p ≠ '.') :
    ∀ text : List Char,
      reLead pat text = leadEq (pat.map Char.toLower) (text.map Char.toLower) := by
  induction pat with
  | nil => intro text; cases text <;> rfl
  | cons p ps ih =>
    intro text
    cases text with
    | nil => rfl
    | cons c cs =>
      simp only [List.map_cons, reLead, leadEq]
      rw [chMatch_of_ne_dot p c (h p (by simp))]
      rw [ih (fun q hq => h q (by simp [hq])) cs]

/-- On dot-free patterns, the unanchored regex search is the case-insensitive
literal substring check. -/
theorem reFind_eq (pat : List Char) (h : ∀ p ∈ pat, p ≠ '.') :
    ∀ text : List Char,
      reFind pat text = hasSub (pat.map Char.toLower) (text.map Char.toLower) := by
  intro text
  induction text with
  | nil => exact reLead_eq pat h []
  | cons c cs ih =>
    simp only [List.map_cons, reFind, hasSub]
    rw [reLead_eq pat h (c :: cs), ih]
    simp only [List.map_cons]

/-- For a nonempty search string without regex metacharacters, the code's
search filter coincides with the spec's case-insensitive substring match. -/
theorem matchesSearch_eq_spec (s : String) (c : Customer) (hne : s ≠ "")
    (hdot : ∀ ch ∈ s.data, ch ≠ '.') :
    matchesSearch (some s) c = specSearchMatch s c := by
  have h1 : matchesSearch (some s) c
      = (reFind s.data c.name.data || reFind s.data c.email.data) := by
    show (if s = "" then true else reFind s.data c.name.data || reFind s.data c.email.data)
      = (reFind s.data c.name.data || reFind s.data c.email.data)
    rw [if_neg hne]
  rw [h1, reFind_eq _ hdot, reFind_eq _ hdot]
  rfl

/-- C5 (amended): for every nonempty search string made only of characters
that are not regex metacharacters, the customers returned by `GET /customers`
are exactly those whose name or email contains the string as a
case-insensitive substring (the raw matching set; the response then paginates
it). -/
theorem search_substring (st : Store) (s : String) (hne : s ≠ "")
    (hmeta : ∀ ch ∈ s.data, ch ∉ regexMeta) :
    (∀ c : Customer, c ∈ filteredCustomers st (some s)
       ↔ c ∈ st.customers ∧ specSearchMatch s c = true)
    ∧ ∀ page limit : Nat,
        (getCustomers st (some s) none page limit).customers
          = ((filteredCustomers st (some s)).drop ((page - 1) * limit)).take limit := by
  have hdot : ∀ ch ∈ s.data, ch ≠ '.' := by
    intro ch hch hEq
    exact hmeta ch hch (by rw [hEq]; simp [regexMeta])
  constructor
  · intro c
    unfold filteredCustomers
    rw [List.mem_filter, matchesSearch_eq_spec s c hne hdot]
  · intro page limit
    rfl

/-- C5 counterexample: searching "." returns John although neither his name
nor his email contains "." as a substring — the handler passes the search
string to `$regex`, which interprets it as a pattern, not a literal. -/
theorem search_substring_counterexample :
    (getCustomers c5Store (some ".") none 1 10).customers = [john]
    ∧ specSearchMatch "." john = false := by
  constructor
  · decide
  · decide

/-- Witness for the amended C5: searching "jo" matches the customer named
"John". -/
theorem search_substring_witness :
    john ∈ filteredCustomers c5Store (some "jo") :=
  ((search_substring c5Store "jo" (by decide) (by decide)).1 john).mpr
    ⟨by decide, by decide⟩

/-- C6: `GET /customers` applies no sort when `sortBy` is absent (natural
store order); a present `sortBy` is split at ":" and the result is sorted on
the parsed field — a permutation of the input ordered by the field comparator,
descending exactly when the parsed order is the string "desc" — and a field
that parses to no document field yields a silent no-op. -/
theorem getCustomers_sort (st : Store) (search : Option String) (page limit : Nat)
    (s : String) (cs : List Customer) (hs : s ≠ "") :
    (getCustomers st search none page limit).customers
      = ((filteredCustomers st search).drop ((page - 1) * limit)).take limit
    ∧ applySort none cs = cs
    ∧ applySort (some s) cs
        = List.insertionSort (custRel (parseSort s).1 ((parseSort s).2 == some "desc")) cs
    ∧ List.Perm (applySort (some s) cs) cs
    ∧ (applySort (some s) cs).Pairwise
        (custRel (parseSort s).1 ((parseSort s).2 == some "desc"))
    ∧ ((parseSort s).1 ≠ "name" → (parseSort s).1 ≠ "email" →
        (parseSort s).1 ≠ "status" → applySort (some s) cs = cs) := by
  have happ : applySort (some s) cs
      = List.insertionSort (custRel (parseSort s).1 ((parseSort s).2 == some "desc")) cs := by
    show (if s = "" then cs
        else List.insertionSort (custRel (parseSort s).1 ((parseSort s).2 == some "desc")) cs)
      = List.insertionSort (custRel (parseSort s).1 ((parseSort s).2 == some "desc")) cs
    rw [if_neg hs]
  refine ⟨rfl, rfl, happ, ?_, ?_, ?_⟩
  · rw [happ]
    exact List.perm_insertionSort _ cs
  · rw [happ]
    exact List.sorted_insertionSort _ cs
  · intro h1 h2 h3
    rw [happ]
    exact List.Sorted.insertionSort_eq
      (pairwise_of_forall (custRel_unknown _ _ h1 h2 h3) cs)

/-- Witness for C6: sorting on the unknown field "height" leaves the list
unchanged. -/
theorem getCustomers_sort_witness :
    applySort (some "height:desc") [john] = [john] :=
  (getCustomers_sort c5Store none 1 10 "height:desc" [john] (by decide)).2.2.2.2.2
    (by decide) (by decide) (by decide)

/-- C7: `PATCH /customers/:id/status` with a target status in
active/blocked updates the identified customer and returns the updated record
with that status; when the id resolves to no customer it responds 404 and
leaves the store unchanged. -/
theorem updateCustomerStatus_spec (st : Store) (id : ObjectId) (s : String)
    (_hs : s = "active" ∨ s = "blocked") :
    ((∀ c ∈ st.customers, c._id ≠ id) →
      patchCustomerStatus st id s = ((404, none), st))
    ∧ (∀ c, st.customers.find? (fun c => decide (c._id = id)) = some c →
        patchCustomerStatus st id s
          = ((200, some { c with status := s }),
             { st with customers := updatedCustomers st id s })
        ∧ ({ c with status := s } : Customer).status = s
        ∧ ({ c with status := s } : Customer) ∈ (patchCustomerStatus st id s).2.customers) := by
  constructor
  · intro hno
    have hfind : st.customers.find? (fun c => decide (c._id = id)) = none := by
      rw [List.find?_eq_none]
      intro c hc
      simp [hno c hc]
    unfold patchCustomerStatus updateCustomerStatus
    rw [hfind]
  · intro c hfind
    have hcid : c._id = id := by
      have := List.find?_some hfind
      simpa using this
    have hmem : c ∈ st.customers := List.mem_of_find?_eq_some hfind
    unfold patchCustomerStatus updateCustomerStatus
    rw [hfind]
    refine ⟨rfl, rfl, ?_⟩
    show ({ c with status := s } : Customer) ∈ updatedCustomers st id s
    unfold updatedCustomers
    have hupd : ({ c with status := s } : Customer)
        = (fun d : Customer => if d._id = id then { d with status := s } else d) c := by
      simp [hcid]
    rw [hupd]
    exact List.mem_map_of_mem _ hmem

/-- Witness for C7: blocking Alice (id 1) returns her record with status
"blocked". -/
theorem updateCustomerStatus_witness :
    (patchCustomerStatus c4Store 1 "blocked").1
      = (200, some { _id := 1, name := "Alice", email := "alice@shop.test",
                     status := "blocked" }) := by
  have h := ((updateCustomerStatus_spec c4Store 1 "blocked" (Or.inr rfl)).2
    { _id := 1, name := "Alice", email := "alice@shop.test", status := "active" }
    (by decide)).1
  rw [h]

/-- C9: in `GET /analytics/sales` the date filter is applied only when both
`startDate` and `endDate` are supplied; with exactly one of them present both
aggregations behave as if no range had been given. -/
theorem salesRange_requires_both (st : Store) (d : Date) :
    salesByMonth st (some d) none = salesByMonth st none none
    ∧ salesByMonth st none (some d) = salesByMonth st none none
    ∧ topProducts st (some d) none = topProducts st none none
    ∧ topProducts st none (some d) = topProducts st none none := by
  have hm1 : matchedOrders st (some d) none = matchedOrders st none none := by
    unfold matchedOrders
    apply List.filter_congr
    intro o _
    rfl
  have hm2 : matchedOrders st none (some d) = matchedOrders st none none := by
    unfold matchedOrders
    apply List.filter_congr
    intro o _
    rfl
  refine ⟨?_, ?_, ?_, ?_⟩
  · unfold salesByMonth
    rw [hm1]
  · unfold salesByMonth
    rw [hm2]
  · unfold topProducts matchedItems
    rw [hm1]
  · unfold topProducts matchedItems
    rw [hm2]

/-- C10: every topSellingProducts row carries an existing Product document
whose id is the row's group key; and in the concrete store `c10Store`, ten
distinct products have completed-order sales yet only nine rows are returned,
because the group of the vanished product 10 is dropped by the final
`$lookup` + `$unwind`. -/
theorem topProducts_resolve (st : Store) (sd ed : Option Date) :
    (∀ e ∈ topProducts st sd ed, e.2 ∈ st.products ∧ e.2._id = e.1.productId)
    ∧ (productGroups (matchedItems c10Store none none)).length = 10
    ∧ (topProducts c10Store none none).length = 9 := by
  refine ⟨?_, by decide, by decide⟩
  intro e he
  unfold topProducts at he
  rw [List.mem_flatMap] at he
  obtain ⟨g, _, he⟩ := he
  rw [List.mem_map] at he
  obtain ⟨p, hp, rfl⟩ := he
  rw [List.mem_filter] at hp
  exact ⟨hp.1, of_decide_eq_true hp.2⟩

/-- Mapping the (year, month) key over the groups built from a key list gives
back the key list. -/
theorem monthGroup_keys (os : List Order) :
    ∀ l : List (Nat × Nat),
      ((l.map (monthGroup os)).map (fun g => (g.year, g.month))) = l := by
  intro l
  induction l with
  | nil => rfl
  | cons k ks ih => simp [monthGroup, ih]

/-- In a duplicate-free list, exactly one entry equals a member. -/
theorem length_filter_eq_one_of_nodup {κ : Type} [DecidableEq κ] :
    ∀ (l : List κ) (a : κ), l.Nodup → a ∈ l →
      (l.filter (fun k => decide (k = a))).length = 1 := by
  intro l
  induction l with
  | nil =>
    intro a _ h
    simp at h
  | cons b bs ih =>
    intro a hnd ha
    rw [List.nodup_cons] at hnd
    rw [List.mem_cons] at ha
    by_cases hba : b = a
    · have hnil : bs.filter (fun k => decide (k = a)) = [] := by
        rw [List.filter_eq_nil_iff]
        intro x hx
        simp only [decide_eq_true_eq]
        intro h
        exact hnd.1 (by rw [hba, ← h]; exact hx)
      simp [List.filter_cons, hba, hnil]
    · rcases ha with h | h
      · exact absurd h.symm hba
      · simp only [List.filter_cons, decide_eq_true_eq]
        rw [if_neg hba]
        exact ih a hnd.2 h

/-- Filtering the groups by one key amounts to filtering the key list. -/
theorem monthGroup_filter (os : List Order) (a : Nat × Nat) :
    ∀ l : List (Nat × Nat),
      ((l.map (monthGroup os)).filter (fun g => decide ((g.year, g.month) = a)))
        = (l.filter (fun k => decide (k = a))).map (monthGroup os) := by
  intro l
  induction l with
  | nil => rfl
  | cons k ks ih =>
    by_cases h : k = a
    · simp [List.filter_cons, monthGroup, h, ih]
    · simp [List.filter_cons, monthGroup, h, ih]

/-- C1: salesByMonth is computed from the completed (and, when both bounds are
supplied, date-filtered) orders: the (year, month) group keys are pairwise
distinct, every matching order falls in exactly one group, each group reports
the sum of totalAmount and the count of its orders, the rows are sorted
ascending by (year, month), and the total of totalSales over all groups equals
the total of totalAmount over all matching orders. -/
theorem salesByMonth_spec (st : Store) (sd ed : Option Date) :
    ((salesByMonth st sd ed).map (fun g => (g.year, g.month))).Nodup
    ∧ (∀ o ∈ matchedOrders st sd ed,
        ((salesByMonth st sd ed).filter
          (fun g => decide ((g.year, g.month) = monthKey o))).length = 1)
    ∧ (∀ g ∈ salesByMonth st sd ed,
        g.totalSales = (((matchedOrders st sd ed).filter
            (fun o => decide (monthKey o = (g.year, g.month)))).map Order.totalAmount).sum
        ∧ g.orderCount = ((matchedOrders st sd ed).filter
            (fun o => decide (monthKey o = (g.year, g.month)))).length)
    ∧ (salesByMonth st sd ed).Pairwise monthLE
    ∧ ((salesByMonth st sd ed).map MonthlySales.totalSales).sum
        = ((matchedOrders st sd ed).map Order.totalAmount).sum := by
  have hperm : List.Perm (salesByMonth st sd ed)
      ((((matchedOrders st sd ed).map monthKey).dedup).map
        (monthGroup (matchedOrders st sd ed))) :=
    List.perm_insertionSort _ _
  have hpermkeys : List.Perm
      ((salesByMonth st sd ed).map (fun g => (g.year, g.month)))
      (((matchedOrders st sd ed).map monthKey).dedup) := by
    have := hperm.map (fun g : MonthlySales => (g.year, g.month))
    rwa [monthGroup_keys] at this
  have hcover : ∀ o ∈ matchedOrders st sd ed,
      monthKey o ∈ ((matchedOrders st sd ed).map monthKey).dedup :=
    fun o ho => List.mem_dedup.2 (List.mem_map_of_mem _ ho)
  refine ⟨?_, ?_, ?_, ?_, ?_⟩
  · exact hpermkeys.symm.nodup (List.nodup_dedup _)
  · intro o ho
    rw [(hperm.filter _).length_eq, monthGroup_filter, List.length_map]
    exact length_filter_eq_one_of_nodup _ _ (List.nodup_dedup _) (hcover o ho)
  · intro g hg
    have hg2 := (hperm.mem_iff).1 hg
    rw [List.mem_map] at hg2
    obtain ⟨k, _, rfl⟩ := hg2
    constructor <;> simp [monthGroup]
  · exact List.sorted_insertionSort monthLE _
  · have h5 : ((salesByMonth st sd ed).map MonthlySales.totalSales).sum
        = (((((matchedOrders st sd ed).map monthKey).dedup).map
            (monthGroup (matchedOrders st sd ed))).map MonthlySales.totalSales).sum :=
      (hperm.map MonthlySales.totalSales).sum_eq
    rw [h5, List.map_map]
    exact sum_partition monthKey Order.totalAmount
      (((matchedOrders st sd ed).map monthKey).dedup) (matchedOrders st sd ed)
      (List.nodup_dedup _) hcover

/-- C2: topSellingProducts has at most 10 rows, is sorted descending by
totalQuantity, and each row's totalQuantity and totalRevenue are the sums of
quantity and of quantity × unitPrice over the matching line items of its
productId, the row carrying that product's existing document.  (The hypothesis
states that product ids are unique in the Products collection.) -/
theorem topProducts_spec (st : Store) (sd ed : Option Date)
    (hnd : (st.products.map Product._id).Nodup) :
    (topProducts st sd ed).length ≤ 10
    ∧ (topProducts st sd ed).Pairwise topRel
    ∧ (∀ e ∈ topProducts st sd ed,
        e.1.totalQuantity = (((matchedItems st sd ed).filter
            (fun d => decide (d.productId = e.1.productId))).map OrderDetail.quantity).sum
        ∧ e.1.totalRevenue = (((matchedItems st sd ed).filter
            (fun d => decide (d.productId = e.1.productId))).map
              (fun d => d.quantity * d.unitPrice)).sum
        ∧ e.2 ∈ st.products ∧ e.2._id = e.1.productId) := by
  refine ⟨?_, ?_, ?_⟩
  · unfold topProducts
    rw [List.length_flatMap]
    have hbound : ∀ x ∈ ((List.insertionSort qtyGE
          (productGroups (matchedItems st sd ed))).take 10).map
        (List.length ∘ fun g => (st.products.filter
          (fun p => decide (p._id = g.productId))).map (fun p => (g, p))), x ≤ 1 := by
      intro x hx
      rw [List.mem_map] at hx
      obtain ⟨g, _, rfl⟩ := hx
      show ((st.products.filter (fun p => decide (p._id = g.productId))).map
        (fun p => (g, p))).length ≤ 1
      rw [List.length_map]
      exact length_filter_key_le_one Product._id st.products hnd g.productId
    refine le_trans (sum_le_length_of_le_one _ hbound) ?_
    rw [List.length_map, List.length_take]
    omega
  · unfold topProducts
    rw [List.pairwise_flatMap]
    constructor
    · intro g _
      rw [List.pairwise_map]
      exact pairwise_of_forall (fun p q => le_refl g.totalQuantity) _
    · have hsorted : ((List.insertionSort qtyGE
          (productGroups (matchedItems st sd ed))).take 10).Pairwise qtyGE :=
        List.Pairwise.sublist (List.take_sublist 10 _)
          (List.sorted_insertionSort qtyGE _)
      refine hsorted.imp ?_
      intro g1 g2 h12 x hx y hy
      rw [List.mem_map] at hx hy
      obtain ⟨p, _, rfl⟩ := hx
      obtain ⟨q, _, rfl⟩ := hy
      exact h12
  · intro e he
    unfold topProducts at he
    rw [List.mem_flatMap] at he
    obtain ⟨g, hg, he⟩ := he
    rw [List.mem_map] at he
    obtain ⟨p, hp, rfl⟩ := he
    rw [List.mem_filter] at hp
    have hg2 : g ∈ productGroups (matchedItems st sd ed) :=
      ((List.perm_insertionSort qtyGE _).mem_iff).1 ((List.take_sublist 10 _).subset hg)
    unfold productGroups at hg2
    rw [List.mem_map] at hg2
    obtain ⟨pid, _, rfl⟩ := hg2
    refine ⟨?_, ?_, hp.1, of_decide_eq_true hp.2⟩
    · simp [productGroup]
    · simp [productGroup]

/-- Witness for C2 at a concrete store with unique product ids. -/
theorem topProducts_spec_witness :
    (topProducts c10Store none none).length ≤ 10 :=
  (topProducts_spec c10Store none none (by decide)).1

/-- The productSales row ids are exactly the distinct productIds of the
window's line items. -/
theorem soldProductIds_eq (st : Store) (cutoff : Int) :
    soldProductIds st cutoff
      = ((recentItems st cutoff).map OrderDetail.productId).dedup := by
  have hrow : ∀ (l : List ObjectId) (f : ObjectId → Int),
      ((l.map (fun pid => ({ _id := pid, totalSales := f pid } : ProductSalesRow))).map
        ProductSalesRow._id) = l := by
    intro l f
    induction l with
    | nil => rfl
    | cons a l ih => simp [ih]
  unfold soldProductIds productSales
  exact hrow _ _

/-- C3: noSalesProducts is disjoint from the products with a completed-order
line item in the trailing window; both are subsets of the Products collection
and together they cover it; productSales reports, per sold productId, the
summed quantity; and the sold ids are exactly the productIds occurring among
the window's line items. -/
theorem analyticsProducts_spec (st : Store) (cutoff : Int) :
    (∀ p ∈ noSalesProducts st cutoff, p ∈ st.products ∧ p ∉ soldProducts st cutoff)
    ∧ (∀ p ∈ soldProducts st cutoff, p ∈ st.products)
    ∧ (∀ p ∈ st.products,
        p ∈ noSalesProducts st cutoff ∨ p ∈ soldProducts st cutoff)
    ∧ (∀ row ∈ productSales st cutoff,
        row.totalSales = (((recentItems st cutoff).filter
          (fun d => decide (d.productId = row._id))).map OrderDetail.quantity).sum)
    ∧ (∀ pid : ObjectId, pid ∈ soldProductIds st cutoff
        ↔ ∃ d ∈ recentItems st cutoff, d.productId = pid) := by
  have hsold : ∀ pid : ObjectId, pid ∈ soldProductIds st cutoff
      ↔ ∃ d ∈ recentItems st cutoff, d.productId = pid := by
    intro pid
    rw [soldProductIds_eq, List.mem_dedup, List.mem_map]
  have hmemNo : ∀ p : Product, p ∈ noSalesProducts st cutoff
      ↔ p ∈ st.products ∧ ¬ p._id ∈ soldProductIds st cutoff := by
    intro p
    unfold noSalesProducts
    rw [List.mem_filter]
    simp
  have hmemSold : ∀ p : Product, p ∈ soldProducts st cutoff
      ↔ p ∈ st.products ∧ p._id ∈ soldProductIds st cutoff := by
    intro p
    unfold soldProducts
    rw [List.mem_filter, List.any_eq_true]
    constructor
    · rintro ⟨hp, d, hd, hdp⟩
      exact ⟨hp, (hsold p._id).2 ⟨d, hd, of_decide_eq_true hdp⟩⟩
    · rintro ⟨hp, hid⟩
      obtain ⟨d, hd, hdp⟩ := (hsold p._id).1 hid
      exact ⟨hp, d, hd, decide_eq_true hdp⟩
  refine ⟨?_, ?_, ?_, ?_, hsold⟩
  · intro p hp
    rw [hmemNo] at hp
    exact ⟨hp.1, fun hs => hp.2 ((hmemSold p).1 hs).2⟩
  · intro p hp
    exact ((hmemSold p).1 hp).1
  · intro p hp
    by_cases h : p._id ∈ soldProductIds st cutoff
    · right
      exact (hmemSold p).2 ⟨hp, h⟩
    · left
      exact (hmemNo p).2 ⟨hp, h⟩
  · intro row hrow
    unfold productSales at hrow
    rw [List.mem_map] at hrow
    obtain ⟨pid, _, rfl⟩ := hrow
    rfl

end Pharmacos
